import Mathlib

/-!
Shallow embedding of the SagashimonoGame hidden-object puzzle game
(TypeScript/React), covering the geometry engine, the hint engine and the
find-progress state machine of `useGame` (src/unnamed/part_012), together
with the shared helpers of `src/src/types/index.ts` and the persistence
layer of `src/src/services/storageService.ts`.

Modelling conventions:
* JavaScript numbers are modelled as `ℚ` (all the arithmetic the claims
  touch — halving of 250, distances, clamping — is exact in doubles).
* JavaScript strings are modelled as `List Char`.
* `Set<string>` is modelled as a `List` of keys together with the
  membership test; insertions only happen after a membership check, as in
  the source, and `new Set(array)` is modelled by `List.dedup`.
* The random draws of `Math.random()` inside `calculateRandomOffset` are
  made explicit parameters: `c` and `s` stand for `Math.cos(angle)` and
  `Math.sin(angle)` of the random angle (so `c^2 + s^2 = 1`), and
  `u ∈ [0,1]` stands for the raw `Math.random()` factor that scales
  `maxOffset` into the random distance.
* `localStorage.setItem` failures (quota exceeded) are modelled by an
  explicit `Except` outcome parameter threaded through `markFound`.
-/

namespace Sagashimono

/-- Marker sizes, `type MarkerSize = 'small' | 'medium' | 'large'`. -/
inductive MarkerSize : Type
  | small
  | medium
  | large
deriving DecidableEq, Repr

/-- `CirclePosition` from `src/src/types/index.ts`: a circular hit region. -/
structure CirclePos where
  x : ℚ
  y : ℚ
  size : MarkerSize
deriving DecidableEq, Repr

/-- A polygon vertex `{ x: number; y: number }`. -/
structure Pt where
  x : ℚ
  y : ℚ
deriving DecidableEq, Repr

/-- `PolygonPosition`: a free-hand polygonal hit region. -/
structure PolygonPos where
  points : List Pt
deriving DecidableEq, Repr

/-- A raw stored position: either a legacy `[x, y]` tuple, a circle, or a
polygon (`Position | LegacyPosition` in the source). -/
inductive RawPosition : Type
  | legacy (x y : ℚ)
  | circle (c : CirclePos)
  | polygon (p : PolygonPos)
deriving DecidableEq, Repr

/-- Titles and position keys are JavaScript strings, modelled as `List Char`. -/
abbrev Str := List Char

/-- A target: a title and its list of positions. -/
structure Target where
  title : Str
  positions : List RawPosition
deriving DecidableEq, Repr

/-- A puzzle: id plus targets (name and image are irrelevant to the claims). -/
structure Puzzle where
  id : Str
  targets : List Target
deriving DecidableEq, Repr

/-- Stored progress record (`Progress` interface). -/
structure Progress where
  puzzleId : Str
  foundPositions : List Str
  completed : Bool
  lastPlayed : ℕ
deriving DecidableEq, Repr

/-- `HintState`: which target/position the hint is about, its escalation
level, and the random center offset of the displayed hint circle. -/
structure HintState where
  target : Str
  positionIndex : ℕ
  level : ℕ
  centerOffset : ℚ × ℚ
deriving DecidableEq, Repr

/-- `GameState` of the `useGame` hook. -/
structure GameState where
  puzzle : Option Puzzle
  foundPositions : List Str
  isCompleted : Bool
  showHint : Bool
  hintTarget : Option Str
  hintState : Option HintState
deriving DecidableEq, Repr

/-! ### Constants (`CONSTANTS` in `src/src/types/index.ts`) -/

def SCALE : ℚ := 1000

def HIT_RADIUS_SMALL : ℚ := 16

def HIT_RADIUS_MEDIUM : ℚ := 32

def HIT_RADIUS_LARGE : ℚ := 64

def HINT_INITIAL_RADIUS : ℚ := 250

def HINT_MIN_RADIUS : ℚ := 62

def HINT_MAX_LEVEL : ℕ := 2

/-- `getHitRadius`: hit-test radius for each marker size. -/
def getHitRadius : MarkerSize → ℚ
  | .small => HIT_RADIUS_SMALL
  | .medium => HIT_RADIUS_MEDIUM
  | .large => HIT_RADIUS_LARGE

/-- `getHintRadius(level)`: cap the level at `HINT_MAX_LEVEL`, halve the
initial radius per level, and apply `Math.max` with `HINT_MIN_RADIUS`. -/
def getHintRadius (level : ℕ) : ℚ :=
  let cappedLevel := min level HINT_MAX_LEVEL
  let radius := HINT_INITIAL_RADIUS / 2 ^ cappedLevel
  max radius HINT_MIN_RADIUS

/-- `getTotalPositionCount`: sum of all targets' position-array lengths. -/
def getTotalPositionCount (puzzle : Puzzle) : ℕ :=
  puzzle.targets.foldl (fun sum t => sum + t.positions.length) 0

/-! ### Position normalization (`src/src/types/index.ts`) -/

/-- `isLegacyPosition`: `Array.isArray(pos)` with two numbers. -/
def isLegacyPosition : RawPosition → Bool
  | .legacy _ _ => true
  | _ => false

/-- `isPolygonPosition`: not an array and `type === 'polygon'`. -/
def isPolygonPosition : RawPosition → Bool
  | .polygon _ => true
  | _ => false

/-- `convertLegacyPosition`: `[x, y]` becomes `{x, y, size: 'medium'}`. -/
def convertLegacyPosition (x y : ℚ) : RawPosition :=
  .circle ⟨x, y, .medium⟩

/-- `normalizePosition`: convert a legacy tuple, pass anything else through. -/
def normalizePosition (pos : RawPosition) : RawPosition :=
  if isLegacyPosition pos then
    match pos with
    | .legacy x y => convertLegacyPosition x y
    | p => p
  else pos

/-- `getPolygonCenter`: arithmetic mean of the vertices. -/
def getPolygonCenter (p : PolygonPos) : ℚ × ℚ :=
  let sumX := p.points.foldl (fun sum q => sum + q.x) 0
  let sumY := p.points.foldl (fun sum q => sum + q.y) 0
  (sumX / p.points.length, sumY / p.points.length)

/-- One ray-casting step of `isPointInPolygon` for the vertex pair
`(points[i], points[j])`: the parity flips exactly when the guard
`((yi > y) !== (yj > y)) && (x < (xj - xi) * (y - yi) / (yj - yi) + xi)`
holds (JavaScript `&&` only evaluates the division under the first
conjunct, which forces `yi ≠ yj`). -/
def edgeCrosses (x y : ℚ) (pi pj : Pt) : Bool :=
  decide ((pi.y > y) ≠ (pj.y > y)) &&
    decide (x < (pj.x - pi.x) * (y - pi.y) / (pj.y - pi.y) + pi.x)

/-- `isPointInPolygon`: ray casting over index pairs
`(i, j) = (0, n-1), (1, 0), …, (n-1, n-2)`. -/
def isPointInPolygon (x y : ℚ) (polygon : PolygonPos) : Bool :=
  let points := polygon.points
  let n := points.length
  (List.range n).foldl
    (fun inside i =>
      let pi := points.getD i ⟨0, 0⟩
      let pj := points.getD (if i = 0 then n - 1 else i - 1) ⟨0, 0⟩
      if edgeCrosses x y pi pj then !inside else inside)
    false

/-! ### Position keys (`makePositionKey` / `parsePositionKey`) -/

/-- Decimal digit character for a single digit (`0 ≤ d ≤ 9`); the final
catch-all is never reached by `natToChars`. -/
def digitChar : ℕ → Char
  | 0 => '0'
  | 1 => '1'
  | 2 => '2'
  | 3 => '3'
  | 4 => '4'
  | 5 => '5'
  | 6 => '6'
  | 7 => '7'
  | 8 => '8'
  | 9 => '9'
  | _ + 10 => '9'

/-- Decimal rendering of a natural number, as JavaScript's template-string
conversion `${index}` produces for the (always natural) position index. -/
def natToChars (n : ℕ) : List Char :=
  if _h : n < 10 then [digitChar n]
  else natToChars (n / 10) ++ [digitChar (n % 10)]
decreasing_by exact Nat.div_lt_self (by omega) (by omega)

/-- `makePositionKey(title, index)`: the string `` `${title}:${index}` ``. -/
def makePositionKey (title : Str) (index : ℕ) : Str :=
  title ++ ':' :: natToChars index

/-- `String.prototype.lastIndexOf` for a single character: index of the
last occurrence, if any. -/
def lastIndexOf (c : Char) : List Char → Option ℕ
  | [] => none
  | x :: xs =>
    match lastIndexOf c xs with
    | some i => some (i + 1)
    | none => if x = c then some 0 else none

/-- Is `c` a decimal digit (the characters `parseInt(_, 10)` consumes)? -/
def isDigitChar (c : Char) : Bool :=
  decide ('0' ≤ c ∧ c ≤ '9')

/-- Numeric value of a digit character. -/
def digitVal (c : Char) : ℕ :=
  c.toNat - 48

/-- `parseInt(s, 10)` restricted to the inputs this code produces: `none`
(NaN) when the string does not start with a decimal digit, otherwise the
value of the maximal leading digit run. -/
def parseIntDec (l : List Char) : Option ℕ :=
  match l with
  | [] => none
  | c :: _ =>
    if isDigitChar c then
      some ((l.takeWhile isDigitChar).foldl (fun acc d => acc * 10 + digitVal d) 0)
    else none

/-- `parsePositionKey(key)`: split at the last colon, parse the suffix as
an integer; `null` when there is no colon or the suffix is not a number. -/
def parsePositionKey (key : Str) : Option (Str × ℕ) :=
  match lastIndexOf ':' key with
  | none => none
  | some lastColon =>
    let title := key.take lastColon
    match parseIntDec (key.drop (lastColon + 1)) with
    | none => none
    | some index => some (title, index)

/-! ### The `useGame` hook (src/unnamed/part_012) -/

/-- The state-reset / progress-restore effect run when a puzzle is loaded
(`useEffect` in `useGame`): restore the found set from stored progress
(`new Set(progress?.foundPositions || [])`, which deduplicates) and derive
`isCompleted` as `progress?.completed || foundPositions.size >= total`. -/
def loadState (puzzle : Option Puzzle) (progress : Option Progress) : GameState :=
  match puzzle with
  | none =>
    { puzzle := none, foundPositions := [], isCompleted := false,
      showHint := false, hintTarget := none, hintState := none }
  | some pz =>
    let foundPositions := ((progress.map Progress.foundPositions).getD []).dedup
    let totalPositions := getTotalPositionCount pz
    let isCompleted :=
      ((progress.map Progress.completed).getD false) ||
        decide (foundPositions.length ≥ totalPositions)
    { puzzle := some pz, foundPositions := foundPositions,
      isCompleted := isCompleted, showHint := false,
      hintTarget := none, hintState := none }

/-- Hit test for one (raw) position after `normalizePosition`, as performed
inside `checkTarget`'s inner loop: polygons use ray casting, circles use
`Math.hypot(clickX - x, clickY - y) < hitRadius` (compared here on
squares, which is equivalent for nonnegative quantities). The `legacy`
branch is unreachable (`normalizePosition` never returns a legacy tuple);
in JavaScript it would compare `NaN < hitRadius`, i.e. `false`. -/
def positionHit (clickX clickY : ℚ) (raw : RawPosition) : Bool :=
  match normalizePosition raw with
  | .polygon poly => isPointInPolygon clickX clickY poly
  | .circle c =>
    decide ((clickX - c.x) ^ 2 + (clickY - c.y) ^ 2 < (getHitRadius c.size) ^ 2)
  | .legacy _ _ => false

/-- Inner loop of `checkTarget` over one target's indexed positions:
skip already-found keys, return the first key whose region contains the
click. -/
def checkPositions (found : List Str) (clickX clickY : ℚ) (title : Str) :
    List (ℕ × RawPosition) → Option Str
  | [] => none
  | (i, pos) :: rest =>
    let posKey := makePositionKey title i
    if posKey ∈ found then checkPositions found clickX clickY title rest
    else if positionHit clickX clickY pos then some posKey
    else checkPositions found clickX clickY title rest

/-- Outer loop of `checkTarget` over the target array. -/
def checkTargetsLoop (found : List Str) (clickX clickY : ℚ) :
    List Target → Option Str
  | [] => none
  | t :: ts =>
    match checkPositions found clickX clickY t.title t.positions.enum with
    | some key => some key
    | none => checkTargetsLoop found clickX clickY ts

/-- `checkTarget(clickX, clickY)`: `null` when no puzzle is loaded or the
puzzle is completed; otherwise the first unfound position key whose region
contains the click, in target-array-then-position-index order. -/
def checkTarget (state : GameState) (clickX clickY : ℚ) : Option Str :=
  match state.puzzle with
  | none => none
  | some pz =>
    if state.isCompleted then none
    else checkTargetsLoop state.foundPositions clickX clickY pz.targets

/-- A distinguishable persistence failure (`localStorage.setItem` throwing,
e.g. `QuotaExceededError`). -/
inductive StorageError : Type
  | quotaExceeded
deriving DecidableEq, Repr

/-- `markFound(positionKey)` with the outcome of the embedded
`saveProgress` call made explicit. The source calls `saveProgress` inside
the `setState` updater, before the updated state is returned; a throw from
`localStorage.setItem` therefore aborts the updater, so no new in-memory
state is produced (`.error`) and the component keeps the previous state. -/
def markFoundWithStorage (prev : GameState) (positionKey : Str)
    (saveOutcome : Except StorageError Unit) : Except StorageError GameState :=
  match prev.puzzle with
  | none => .ok prev
  | some pz =>
    if positionKey ∈ prev.foundPositions then .ok prev
    else
      let newFoundPositions := prev.foundPositions ++ [positionKey]
      let totalPositions := getTotalPositionCount pz
      let isCompleted := decide (newFoundPositions.length ≥ totalPositions)
      match saveOutcome with
      | .error e => .error e
      | .ok _ =>
        .ok { prev with foundPositions := newFoundPositions,
                        isCompleted := isCompleted }

/-- `markFound(positionKey)` on the normal path (the storage write
succeeds). -/
def markFound (prev : GameState) (positionKey : Str) : GameState :=
  match markFoundWithStorage prev positionKey (.ok ()) with
  | .ok next => next
  | .error _ => prev

/-- `maxOffset` computed by `calculateRandomOffset`: hint radius minus hit
radius, clamped below at 0. For a polygon the hit radius is the hard-coded
default 32; the `legacy` branch is unreachable (inputs are normalized). -/
def calculateRandomOffset (answerPos : RawPosition) (hintRadius : ℚ)
    (c s u : ℚ) : ℚ × ℚ :=
  let center :=
    match answerPos with
    | .polygon poly =>
      let ctr := getPolygonCenter poly
      (ctr.1, ctr.2, (32 : ℚ))
    | .circle cp => (cp.x, cp.y, getHitRadius cp.size)
    | .legacy x y => (x, y, getHitRadius .medium)
  let centerX := center.1
  let centerY := center.2.1
  let hitRadius := center.2.2
  let maxOffset := max 0 (hintRadius - hitRadius)
  let distance := u * maxOffset
  let offsetX := c * distance
  let offsetY := s * distance
  let margin := hintRadius
  let newX := max margin (min (SCALE - margin) (centerX + offsetX))
  let newY := max margin (min (SCALE - margin) (centerY + offsetY))
  (newX - centerX, newY - centerY)

/-- The list of still-unfound (index, normalized position) pairs of a
target, built by `showHintForTarget`. -/
def unfoundPositions (target : Target) (found : List Str) :
    List (ℕ × RawPosition) :=
  target.positions.enum.filterMap fun ip =>
    if makePositionKey target.title ip.1 ∈ found then none
    else some (ip.1, normalizePosition ip.2)

/-- The level computation inside `showHintForTarget`: if the previous
hint state refers to the same target and the selected position index, this
is a "repeat" request and the level is incremented (with no cap);
otherwise the level restarts at 0. -/
def nextLevelOf (prevHint : Option HintState) (targetTitle : Str)
    (selectedIndex : ℕ) : ℕ :=
  match prevHint with
  | some hs =>
    if hs.target = targetTitle ∧ hs.positionIndex = selectedIndex then
      hs.level + 1
    else 0
  | none => 0

/-- `showHintForTarget(targetTitle)` (state-updater part): pick the first
unfound position of the named target; if the previous hint state refers to
the same target and position index, increment the level, otherwise start
at level 0; recompute the random center offset; set the hint visible. The
random draws `c, s, u` parametrize `Math.cos(angle)`, `Math.sin(angle)`
and `Math.random()`. -/
def showHintForTarget (prev : GameState) (targetTitle : Str)
    (c s u : ℚ) : GameState :=
  match prev.puzzle with
  | none => prev
  | some pz =>
    match pz.targets.find? (fun t => t.title == targetTitle) with
    | none => prev
    | some target =>
      match unfoundPositions target prev.foundPositions with
      | [] => prev
      | selected :: _ =>
        let nextLevel := nextLevelOf prev.hintState targetTitle selected.1
        let hintRadius := getHintRadius nextLevel
        let centerOffset := calculateRandomOffset selected.2 hintRadius c s u
        { prev with
            showHint := true,
            hintTarget := some targetTitle,
            hintState := some
              { target := targetTitle, positionIndex := selected.1,
                level := nextLevel, centerOffset := centerOffset } }

/-- The `setTimeout` callback of `showHintForTarget`, run after
`HINT_DURATION` elapses: hide the hint (`showHint := false`,
`hintTarget := null`) while keeping `hintState` so the level carries over. -/
def clearHintTimeout (prev : GameState) : GameState :=
  { prev with showHint := false, hintTarget := none }

/-- `resetGame()`: clear the found set, completion flag and all hint
state, and persist an empty progress record. -/
def resetGame (prev : GameState) : GameState :=
  match prev.puzzle with
  | none => prev
  | some _ =>
    { prev with
        foundPositions := [], isCompleted := false, showHint := false,
        hintTarget := none, hintState := none }

/-! ### Spec-side definitions and concrete fixtures -/

/-- Modelled from the spec's words for the refinement claim about
`checkHit` (C5): flatten all targets' positions into
title-then-position-index order, and return the first key that is not yet
found and whose region contains the click. -/
def specCheckHit (pz : Puzzle) (found : List Str) (clickX clickY : ℚ) :
    Option Str :=
  let ordered :=
    pz.targets.flatMap fun t =>
      t.positions.enum.map fun ip => (makePositionKey t.title ip.1, ip.2)
  (ordered.find? fun kp =>
      !(decide (kp.1 ∈ found)) && positionHit clickX clickY kp.2).map Prod.fst

/-- The spec's derivation of the completion flag: whenever a puzzle is
loaded, `isCompleted` equals `foundPositions.size >= totalPositionCount`. -/
def completionDerived (st : GameState) : Prop :=
  ∀ pz, st.puzzle = some pz →
    st.isCompleted = decide (st.foundPositions.length ≥ getTotalPositionCount pz)

/-- A one-position target `"fox"` used for concrete runs. -/
def sampleTarget : Target :=
  ⟨['f', 'o', 'x'], [.circle ⟨500, 500, .medium⟩]⟩

/-- A one-target, one-position sample puzzle used for concrete runs. -/
def samplePuzzle : Puzzle :=
  ⟨['p', '1'], [sampleTarget]⟩

/-- A stored progress record claiming completion while listing no found
positions. -/
def staleProgress : Progress :=
  ⟨['p', '1'], [], true, 0⟩

/-- A game state on `samplePuzzle` whose hint state points at the (still
unfound) position 0 of `"fox"` at level 0, as after one hint request. -/
def sampleRepeatState : GameState :=
  { puzzle := some samplePuzzle, foundPositions := [], isCompleted := false,
    showHint := true, hintTarget := some ['f', 'o', 'x'],
    hintState := some ⟨['f', 'o', 'x'], 0, 0, (0, 0)⟩ }

/-- Fresh session on `samplePuzzle` (no stored progress). -/
def sampleStart : GameState := loadState (some samplePuzzle) none

/-- `sampleStart` after `n` hint requests for `"fox"` (with the random
draws fixed at angle 0 and `Math.random() = 0`). -/
def sampleHintIter (n : ℕ) : GameState :=
  Nat.rec sampleStart
    (fun _ st => showHintForTarget st ['f', 'o', 'x'] 1 0 0) n

/-! ## Theorems -/

/-- C2 counterexample: the claim states `getHintRadius(2) = 62`, but the
source computes `Math.max(250 / 2^2, 62) = Math.max(62.5, 62) = 62.5`:
the `HINT_MIN_RADIUS` floor is a lower bound that never bites here. -/
theorem C2_counterexample_hint_radius_level2 : getHintRadius 2 ≠ 62 := by
  norm_num [getHintRadius, HINT_INITIAL_RADIUS, HINT_MIN_RADIUS, HINT_MAX_LEVEL,
    max_def]

/-- C2 (amended): `getHintRadius` is monotonically non-increasing in the
level and bounded below by `HINT_MIN_RADIUS`, with
`getHintRadius 0 = 250`, `getHintRadius 1 = 125`,
`getHintRadius 2 = 62.5` (not 62: the floor never binds), and
`getHintRadius 3 = getHintRadius 2` (the level is capped at 2). -/
theorem C2_hint_radius_profile :
    (∀ l1 l2 : ℕ, l1 ≤ l2 → getHintRadius l2 ≤ getHintRadius l1) ∧
    (∀ l : ℕ, HINT_MIN_RADIUS ≤ getHintRadius l) ∧
    getHintRadius 0 = 250 ∧ getHintRadius 1 = 125 ∧
    getHintRadius 2 = 125 / 2 ∧ getHintRadius 3 = getHintRadius 2 := by
  refine ⟨?_, ?_, ?_, ?_, ?_, ?_⟩
  · intro l1 l2 h
    simp only [getHintRadius]
    refine max_le_max ?_ le_rfl
    have hpow : (2 : ℚ) ^ (min l1 HINT_MAX_LEVEL) ≤ 2 ^ (min l2 HINT_MAX_LEVEL) := by
      refine pow_le_pow_right₀ (by norm_num) (min_le_min_right _ h)
    have h0 : (0 : ℚ) < 2 ^ (min l1 HINT_MAX_LEVEL) := by positivity
    rw [div_le_div_iff₀ (by positivity) h0]
    have h250 : (0 : ℚ) ≤ HINT_INITIAL_RADIUS := by norm_num [HINT_INITIAL_RADIUS]
    nlinarith
  · intro l
    simp only [getHintRadius]
    exact le_max_right _ _
  · norm_num [getHintRadius, HINT_INITIAL_RADIUS, HINT_MIN_RADIUS, HINT_MAX_LEVEL,
      max_def]
  · norm_num [getHintRadius, HINT_INITIAL_RADIUS, HINT_MIN_RADIUS, HINT_MAX_LEVEL,
      max_def]
  · norm_num [getHintRadius, HINT_INITIAL_RADIUS, HINT_MIN_RADIUS, HINT_MAX_LEVEL,
      max_def]
  · norm_num [getHintRadius, HINT_INITIAL_RADIUS, HINT_MIN_RADIUS, HINT_MAX_LEVEL,
      max_def]

/-- C2 witness: the monotonicity and floor parts of
`C2_hint_radius_profile` instantiated at concrete levels. -/
theorem C2_hint_radius_profile_witness :
    getHintRadius 2 ≤ getHintRadius 1 ∧ HINT_MIN_RADIUS ≤ getHintRadius 7 :=
  ⟨C2_hint_radius_profile.1 1 2 (by norm_num), C2_hint_radius_profile.2.1 7⟩

/-- C9 (confirmed): `normalizePosition` maps a legacy `[x, y]` tuple to
the medium circle `{x, y, size: 'medium'}`, and normalizing twice equals
normalizing once, on every legacy, circle or polygon input. -/
theorem C9_normalize_legacy_and_idempotent :
    (∀ x y : ℚ, normalizePosition (.legacy x y) = .circle ⟨x, y, .medium⟩) ∧
    (∀ p : RawPosition,
      normalizePosition (normalizePosition p) = normalizePosition p) := by
  constructor
  · intro x y; rfl
  · intro p; cases p <;> rfl

/-- C6 (confirmed): the hit radii are 16/32/64 for small/medium/large, and
for every circle position a click strictly inside the hit radius
(`distance² < hitRadius²`, equivalent to `distance < hitRadius` for the
nonnegative quantities involved) is a hit while a click exactly on the
boundary (`distance² = hitRadius²`) is a miss. -/
theorem C6_circle_hit_strict_boundary :
    (getHitRadius .small = 16 ∧ getHitRadius .medium = 32 ∧
      getHitRadius .large = 64) ∧
    (∀ (clickX clickY cx cy : ℚ) (size : MarkerSize),
      ((clickX - cx) ^ 2 + (clickY - cy) ^ 2 < (getHitRadius size) ^ 2 →
        positionHit clickX clickY (.circle ⟨cx, cy, size⟩) = true) ∧
      ((clickX - cx) ^ 2 + (clickY - cy) ^ 2 = (getHitRadius size) ^ 2 →
        positionHit clickX clickY (.circle ⟨cx, cy, size⟩) = false)) := by
  refine ⟨⟨rfl, rfl, rfl⟩, ?_⟩
  intro clickX clickY cx cy size
  constructor
  · intro h
    simp only [positionHit, normalizePosition, isLegacyPosition, if_neg]
    exact decide_eq_true h
  · intro h
    simp only [positionHit, normalizePosition, isLegacyPosition, if_neg]
    simp [h]

/-- C6 witness: on a small circle at `(500, 500)`, the click `(500, 510)`
(distance 10 < 16) hits, and the click `(516, 500)` (distance exactly 16)
misses. -/
theorem C6_circle_hit_strict_boundary_witness :
    positionHit 500 510 (.circle ⟨500, 500, .small⟩) = true ∧
    positionHit 516 500 (.circle ⟨500, 500, .small⟩) = false :=
  ⟨(C6_circle_hit_strict_boundary.2 500 510 500 500 .small).1
      (by norm_num [getHitRadius, HIT_RADIUS_SMALL]),
    (C6_circle_hit_strict_boundary.2 516 500 500 500 .small).2
      (by norm_num [getHitRadius, HIT_RADIUS_SMALL])⟩

/-- The inner position loop of `checkTarget` is the first-match search
over the keyed position list of one target. -/
lemma checkPositions_eq_find? (found : List Str) (clickX clickY : ℚ)
    (title : Str) (l : List (ℕ × RawPosition)) :
    checkPositions found clickX clickY title l =
      ((l.map fun ip => (makePositionKey title ip.1, ip.2)).find?
        (fun kp => !(decide (kp.1 ∈ found)) && positionHit clickX clickY kp.2)).map
        Prod.fst := by
  induction l with
  | nil => rfl
  | cons hd tl ih =>
    obtain ⟨i, pos⟩ := hd
    by_cases hmem : makePositionKey title i ∈ found
    · simp [checkPositions, hmem, ih]
    · by_cases hhit : positionHit clickX clickY pos = true
      · simp [checkPositions, hmem, hhit]
      · simp [checkPositions, hmem, hhit, ih]

/-- The outer target loop of `checkTarget` is the first-match search over
the flattened keyed position list. -/
lemma checkTargetsLoop_eq_find? (found : List Str) (clickX clickY : ℚ)
    (ts : List Target) :
    checkTargetsLoop found clickX clickY ts =
      (((ts.flatMap fun t =>
            t.positions.enum.map fun ip => (makePositionKey t.title ip.1, ip.2)).find?
        (fun kp => !(decide (kp.1 ∈ found)) && positionHit clickX clickY kp.2)).map
        Prod.fst) := by
  induction ts with
  | nil => rfl
  | cons t ts ih =>
    rw [List.flatMap_cons, List.find?_append]
    cases hfst : (t.positions.enum.map fun ip =>
        (makePositionKey t.title ip.1, ip.2)).find?
        (fun kp => !(decide (kp.1 ∈ found)) && positionHit clickX clickY kp.2) with
    | none =>
      simp [checkTargetsLoop, checkPositions_eq_find?, hfst, Option.or, ih]
    | some kp =>
      simp [checkTargetsLoop, checkPositions_eq_find?, hfst, Option.or]

/-- C5 (confirmed): `checkTarget` returns `null` when no puzzle is loaded
or the puzzle is completed, and otherwise returns exactly the first
position key — in target-array-then-position-index order, skipping
already-found keys — whose (normalized) region contains the click, as
described by the spec-side `specCheckHit`. -/
theorem C5_checkTarget_is_ordered_first_match :
    ∀ (st : GameState) (clickX clickY : ℚ),
      checkTarget st clickX clickY =
        st.puzzle.bind fun pz =>
          if st.isCompleted then none
          else specCheckHit pz st.foundPositions clickX clickY := by
  intro st clickX clickY
  cases hpz : st.puzzle with
  | none => simp [checkTarget, hpz]
  | some pz =>
    by_cases hc : st.isCompleted = true <;>
      simp [checkTarget, hpz, hc, specCheckHit, checkTargetsLoop_eq_find?]

/-- C7 counterexample: loading a stored progress record whose `completed`
flag is `true` but whose `foundPositions` list is empty produces
`isCompleted = true` on a 1-position puzzle even though
`foundPositions.size >= totalPositionCount` is false — the load operation
trusts the stored flag (`progress?.completed || …`) instead of deriving
it. -/
theorem C7_counterexample_load_trusts_stored_flag :
    ¬ completionDerived (loadState (some samplePuzzle) (some staleProgress)) := by
  intro h
  have hfield := h samplePuzzle rfl
  simp [loadState, staleProgress, getTotalPositionCount, samplePuzzle,
    sampleTarget] at hfield

/-- C7 (amended): the completion flag equals the derivation
`foundPositions.size >= totalPositionCount(puzzle)` after `markFound`
(whenever it held before), after `resetGame` on any puzzle with at least
one position, and after loading with no stored progress; loading a stored
progress record preserves the derivation exactly when the stored
`completed` flag agrees with the derivation over the deduplicated stored
`foundPositions` (as is the case for records the machine itself saved). -/
theorem C7_completion_flag_derivation :
    (∀ (st : GameState) (key : Str),
      completionDerived st → completionDerived (markFound st key)) ∧
    (∀ st : GameState,
      (∀ pz, st.puzzle = some pz → 0 < getTotalPositionCount pz) →
      completionDerived (resetGame st)) ∧
    (∀ opz : Option Puzzle, completionDerived (loadState opz none)) ∧
    (∀ (pz : Puzzle) (pr : Progress),
      (pr.completed = true →
        getTotalPositionCount pz ≤ pr.foundPositions.dedup.length) →
      completionDerived (loadState (some pz) (some pr))) := by
  refine ⟨?_, ?_, ?_, ?_⟩
  · intro st key hst
    cases hpz : st.puzzle with
    | none =>
      intro pz' h'
      simp only [markFound, markFoundWithStorage, hpz] at h' ⊢
      exact Option.noConfusion h'
    | some pz =>
      by_cases hmem : key ∈ st.foundPositions
      · intro pz' h'
        simp only [markFound, markFoundWithStorage, hpz, if_pos hmem] at h' ⊢
        exact hst pz' (hpz.trans h')
      · intro pz' h'
        simp only [markFound, markFoundWithStorage, hpz, if_neg hmem] at h' ⊢
        obtain rfl : pz = pz' := by injection h'
        rfl
  · intro st hpos
    cases hpz : st.puzzle with
    | none =>
      intro pz' h'
      simp only [resetGame, hpz] at h'
      exact Option.noConfusion h'
    | some pz =>
      intro pz' h'
      simp only [resetGame, hpz] at h' ⊢
      obtain rfl : pz = pz' := by injection h'
      have hp := hpos pz hpz
      simp [Nat.not_le.mpr hp]
  · intro opz
    cases opz with
    | none => intro pz' h'; simp [loadState] at h'
    | some pz =>
      intro pz' h'
      simp only [loadState] at h' ⊢
      obtain rfl : pz = pz' := by injection h'
      simp
  · intro pz pr hagree
    intro pz' h'
    simp only [loadState] at h' ⊢
    obtain rfl : pz = pz' := by injection h'
    cases hc : pr.completed with
    | false => simp [hc]
    | true =>
      have := hagree hc
      simp [hc, this]

/-- C7 witness: `markFound` applied to a freshly loaded state on
`samplePuzzle` keeps the completion flag equal to its derivation. -/
theorem C7_completion_flag_derivation_witness :
    completionDerived
      (markFound (loadState (some samplePuzzle) none)
        (makePositionKey ['f', 'o', 'x'] 0)) :=
  C7_completion_flag_derivation.1 _ _
    (C7_completion_flag_derivation.2.2.1 (some samplePuzzle))

/-- C3 (code bug): the claim states that a failing persistence write must
leave the newly marked key in the in-memory found set and surface a
distinguishable error. In the source, `markFound` calls `saveProgress`
inside the `setState` updater before returning the updated state and
`saveProgress` catches nothing, so a quota-exceeded throw aborts the
updater: evaluated at a fresh session on `samplePuzzle`, the failing call
leaves the previous in-memory state, which does not contain the key. -/
theorem C3_persistence_failure_drops_memory_state :
    markFoundWithStorage sampleStart (makePositionKey ['f', 'o', 'x'] 0)
        (.error .quotaExceeded) = .error .quotaExceeded ∧
    makePositionKey ['f', 'o', 'x'] 0 ∉ sampleStart.foundPositions := by
  constructor
  · rfl
  · simp [sampleStart, loadState]

/-- Symbolic one-step equation for `showHintForTarget` when the target
exists and has at least one unfound position. -/
lemma showHintForTarget_step (st : GameState) (pz : Puzzle) (target : Target)
    (t : Str) (i : ℕ) (p : RawPosition) (rest : List (ℕ × RawPosition))
    (c s u : ℚ)
    (hpz : st.puzzle = some pz)
    (hfind : pz.targets.find? (fun t' => t'.title == t) = some target)
    (hunf : unfoundPositions target st.foundPositions = (i, p) :: rest) :
    showHintForTarget st t c s u =
      { st with
          showHint := true,
          hintTarget := some t,
          hintState := some
            ⟨t, i, nextLevelOf st.hintState t i,
              calculateRandomOffset p
                (getHintRadius (nextLevelOf st.hintState t i)) c s u⟩ } := by
  simp only [showHintForTarget, hpz, hfind, hunf]

/-- A repeat request — previous hint state on the same target and the same
still-unfound first position — stores level `old + 1`, with no cap. -/
lemma repeat_request_increments_level (st : GameState) (pz : Puzzle)
    (target : Target) (t : Str) (i : ℕ) (p : RawPosition)
    (rest : List (ℕ × RawPosition)) (hs : HintState) (c s u : ℚ)
    (hpz : st.puzzle = some pz)
    (hfind : pz.targets.find? (fun t' => t'.title == t) = some target)
    (hunf : unfoundPositions target st.foundPositions = (i, p) :: rest)
    (hhs : st.hintState = some hs) (htgt : hs.target = t)
    (hidx : hs.positionIndex = i) :
    (showHintForTarget st t c s u).hintState.map HintState.level =
      some (hs.level + 1) := by
  rw [showHintForTarget_step st pz target t i p rest c s u hpz hfind hunf]
  simp [nextLevelOf, hhs, htgt, hidx]

/-- After `n + 1` hint requests for `"fox"` on a fresh `samplePuzzle`
session, the stored hint state sits at position 0 of `"fox"` with level
`n`, and puzzle and found set are unchanged. -/
lemma sampleHintIter_shape :
    ∀ n : ℕ, ∃ off : ℚ × ℚ,
      sampleHintIter (n + 1) =
        { puzzle := some samplePuzzle, foundPositions := [],
          isCompleted := false, showHint := true,
          hintTarget := some ['f', 'o', 'x'],
          hintState := some ⟨['f', 'o', 'x'], 0, n, off⟩ } := by
  intro n
  induction n with
  | zero =>
    refine ⟨calculateRandomOffset (.circle ⟨500, 500, .medium⟩)
      (getHintRadius 0) 1 0 0, ?_⟩
    have hstep := showHintForTarget_step sampleStart samplePuzzle sampleTarget
      ['f', 'o', 'x'] 0 (.circle ⟨500, 500, .medium⟩) [] 1 0 0 rfl rfl rfl
    exact hstep
  | succ n ih =>
    obtain ⟨off, hoff⟩ := ih
    refine ⟨calculateRandomOffset (.circle ⟨500, 500, .medium⟩)
      (getHintRadius (n + 1)) 1 0 0, ?_⟩
    have hstep := showHintForTarget_step (sampleHintIter (n + 1)) samplePuzzle
      sampleTarget ['f', 'o', 'x'] 0 (.circle ⟨500, 500, .medium⟩) [] 1 0 0
      (by rw [hoff]) (by rfl) (by rw [hoff]; rfl)
    show showHintForTarget (sampleHintIter (n + 1)) ['f', 'o', 'x'] 1 0 0 = _
    rw [hstep, hoff]
    simp [nextLevelOf]

/-- C4 counterexample: starting a fresh session on `samplePuzzle` and
issuing four hint requests for the still-unfound `"fox"` reaches a hint
state whose stored level is 3, exceeding `HINT_MAX_LEVEL = 2` — the
source increments `prev.hintState.level + 1` without applying the cap to
the stored level. -/
theorem C4_counterexample_stored_level_exceeds_cap :
    (sampleHintIter 4).hintState.map HintState.level = some 3 ∧
    ¬ (3 ≤ HINT_MAX_LEVEL) := by
  constructor
  · obtain ⟨off, hoff⟩ := sampleHintIter_shape 3
    rw [hoff]
    rfl
  · decide

/-- C4 (amended): a repeat hint request for the same still-unfound
(target, positionIndex) increments the stored level by one with no cap —
after `k` repeats the stored level is `k`, which can exceed
`HINT_MAX_LEVEL = 2` — while only the displayed radius is capped:
`getHintRadius(level) = getHintRadius(HINT_MAX_LEVEL)` for every
`level ≥ HINT_MAX_LEVEL`. -/
theorem C4_repeat_hint_level_escalation :
    (∀ (st : GameState) (pz : Puzzle) (target : Target) (t : Str) (i : ℕ)
        (p : RawPosition) (rest : List (ℕ × RawPosition)) (hs : HintState)
        (c s u : ℚ),
      st.puzzle = some pz →
      pz.targets.find? (fun t' => t'.title == t) = some target →
      unfoundPositions target st.foundPositions = (i, p) :: rest →
      st.hintState = some hs → hs.target = t → hs.positionIndex = i →
      (showHintForTarget st t c s u).hintState.map HintState.level =
        some (hs.level + 1)) ∧
    (∀ n : ℕ, HINT_MAX_LEVEL ≤ n →
      getHintRadius n = getHintRadius HINT_MAX_LEVEL) := by
  constructor
  · intro st pz target t i p rest hs c s u hpz hfind hunf hhs htgt hidx
    exact repeat_request_increments_level st pz target t i p rest hs c s u
      hpz hfind hunf hhs htgt hidx
  · intro n hn
    simp only [getHintRadius, Nat.min_eq_right hn, Nat.min_self]

/-- C4 witness: one repeat request on `sampleRepeatState` (level 0 on the
unfound position 0 of `"fox"`) stores level 1, and `getHintRadius 5`
equals `getHintRadius HINT_MAX_LEVEL`. -/
theorem C4_repeat_hint_level_escalation_witness :
    (showHintForTarget sampleRepeatState ['f', 'o', 'x'] 1 0 0).hintState.map
        HintState.level = some 1 ∧
    getHintRadius 5 = getHintRadius HINT_MAX_LEVEL :=
  ⟨C4_repeat_hint_level_escalation.1 sampleRepeatState samplePuzzle
      sampleTarget ['f', 'o', 'x'] 0 (.circle ⟨500, 500, .medium⟩) []
      ⟨['f', 'o', 'x'], 0, 0, (0, 0)⟩ 1 0 0 rfl rfl rfl rfl rfl rfl,
    C4_repeat_hint_level_escalation.2 5 (by norm_num [HINT_MAX_LEVEL])⟩

/-- C8 (confirmed): the hint auto-clear timeout only hides the hint —
`showHint` becomes false (and the displayed `hintTarget` is cleared) while
`hintState`'s (target, positionIndex, level) and all game progress fields
are preserved — so a subsequent repeat request on the same still-unfound
position escalates the stored level to `old + 1` instead of restarting at
0. -/
theorem C8_hint_autoclear_preserves_state :
    (∀ st : GameState,
      (clearHintTimeout st).hintState = st.hintState ∧
      (clearHintTimeout st).showHint = false ∧
      (clearHintTimeout st).puzzle = st.puzzle ∧
      (clearHintTimeout st).foundPositions = st.foundPositions ∧
      (clearHintTimeout st).isCompleted = st.isCompleted) ∧
    (∀ (st : GameState) (pz : Puzzle) (target : Target) (t : Str) (i : ℕ)
        (p : RawPosition) (rest : List (ℕ × RawPosition)) (hs : HintState)
        (c s u : ℚ),
      st.puzzle = some pz →
      pz.targets.find? (fun t' => t'.title == t) = some target →
      unfoundPositions target st.foundPositions = (i, p) :: rest →
      st.hintState = some hs → hs.target = t → hs.positionIndex = i →
      (showHintForTarget (clearHintTimeout st) t c s u).hintState.map
        HintState.level = some (hs.level + 1)) := by
  constructor
  · intro st
    exact ⟨rfl, rfl, rfl, rfl, rfl⟩
  · intro st pz target t i p rest hs c s u hpz hfind hunf hhs htgt hidx
    exact repeat_request_increments_level (clearHintTimeout st) pz target
      t i p rest hs c s u hpz hfind hunf hhs htgt hidx

/-- C8 witness: clearing the hint on `sampleRepeatState` keeps its hint
state, and a subsequent request for `"fox"` stores level 1. -/
theorem C8_hint_autoclear_preserves_state_witness :
    (clearHintTimeout sampleRepeatState).hintState =
      sampleRepeatState.hintState ∧
    (showHintForTarget (clearHintTimeout sampleRepeatState)
        ['f', 'o', 'x'] 1 0 0).hintState.map HintState.level = some 1 :=
  ⟨(C8_hint_autoclear_preserves_state.1 sampleRepeatState).1,
    C8_hint_autoclear_preserves_state.2 (clearHintTimeout sampleRepeatState)
      samplePuzzle sampleTarget ['f', 'o', 'x'] 0
      (.circle ⟨500, 500, .medium⟩) [] ⟨['f', 'o', 'x'], 0, 0, (0, 0)⟩
      1 0 0 rfl rfl rfl rfl rfl rfl⟩

/-- C1 counterexample: for the small circle at `(0, 500)` (canvas edge) at
hint level 2, the admissible random draw `angle = 0`, `random = 0`
(`c = 1`, `s = 0`, `u = 0`) produces a center offset whose squared length
exceeds `(hintRadius - hitRadius)^2`: the edge clamp moves the hint
circle's center 62.5 units away from the true center, so the hit region
pokes out of the displayed hint circle
(`62.5 + 16 > 62.5 = getHintRadius 2`). -/
theorem C1_counterexample_edge_clamp :
    (1 : ℚ) ^ 2 + 0 ^ 2 = 1 ∧ (0 : ℚ) ≤ 0 ∧ (0 : ℚ) ≤ 1 ∧
    ¬ (((calculateRandomOffset (.circle ⟨0, 500, .small⟩)
            (getHintRadius 2) 1 0 0).1) ^ 2 +
        ((calculateRandomOffset (.circle ⟨0, 500, .small⟩)
            (getHintRadius 2) 1 0 0).2) ^ 2 ≤
        (getHintRadius 2 - getHitRadius .small) ^ 2) := by
  refine ⟨by norm_num, le_refl 0, by norm_num, ?_⟩
  norm_num [calculateRandomOffset, getHintRadius, getHitRadius,
    HINT_INITIAL_RADIUS, HINT_MIN_RADIUS, HINT_MAX_LEVEL, HIT_RADIUS_SMALL,
    SCALE, max_def, min_def]

/-- Clamping a value into an interval that contains `x` never moves it
farther from `x`. -/
lemma clamp_sq_le (a b x v : ℚ) (h1 : a ≤ x) (h2 : x ≤ b) :
    (max a (min b v) - x) ^ 2 ≤ (v - x) ^ 2 := by
  rcases le_total v a with hva | hav
  · have hvb : v ≤ b := hva.trans (h1.trans h2)
    rw [min_eq_right hvb, max_eq_left hva]
    nlinarith [mul_nonneg (sub_nonneg.2 hva)
      (by linarith : (0 : ℚ) ≤ (x - a) + (x - v))]
  · rcases le_total v b with hvb | hbv
    · rw [min_eq_right hvb, max_eq_right hav]
    · rw [min_eq_left hbv, max_eq_right (h1.trans h2)]
      nlinarith [mul_nonneg (sub_nonneg.2 hbv)
        (by linarith : (0 : ℚ) ≤ (v - x) + (b - x))]

/-- C1 (amended): the containment
`distance(trueCenter, hintCenter)² ≤ (hintRadius - hitRadius)²` holds for
every random draw (`c² + s² = 1`, `u ∈ [0,1]`) provided (a) the hit radius
does not exceed the hint radius (which fails for large circles at level 2,
where `64 > 62.5`), and (b) the true center lies inside the clamp interval
`[hintRadius, SCALE - hintRadius]` in both coordinates (near the canvas
edges the clamp can move the hint circle off the target, as the
counterexample shows). -/
theorem C1_hint_containment (cx cy : ℚ) (size : MarkerSize) (level : ℕ)
    (c s u : ℚ)
    (hcs : c ^ 2 + s ^ 2 = 1) (hu0 : 0 ≤ u) (hu1 : u ≤ 1)
    (hr : getHitRadius size ≤ getHintRadius level)
    (hx1 : getHintRadius level ≤ cx)
    (hx2 : cx ≤ SCALE - getHintRadius level)
    (hy1 : getHintRadius level ≤ cy)
    (hy2 : cy ≤ SCALE - getHintRadius level) :
    ((calculateRandomOffset (.circle ⟨cx, cy, size⟩)
        (getHintRadius level) c s u).1) ^ 2 +
      ((calculateRandomOffset (.circle ⟨cx, cy, size⟩)
        (getHintRadius level) c s u).2) ^ 2 ≤
      (getHintRadius level - getHitRadius size) ^ 2 := by
  set R := getHintRadius level with hR
  set r := getHitRadius size with hrr
  have hmax : max 0 (R - r) = R - r := max_eq_right (sub_nonneg.2 hr)
  simp only [calculateRandomOffset, hmax]
  have hx := clamp_sq_le R (SCALE - R) cx (cx + c * (u * (R - r))) hx1 hx2
  have hy := clamp_sq_le R (SCALE - R) cy (cy + s * (u * (R - r))) hy1 hy2
  have hx' : (max R (min (SCALE - R) (cx + c * (u * (R - r)))) - cx) ^ 2 ≤
      c ^ 2 * (u * (R - r)) ^ 2 := by
    calc (max R (min (SCALE - R) (cx + c * (u * (R - r)))) - cx) ^ 2 ≤
        (cx + c * (u * (R - r)) - cx) ^ 2 := hx
      _ = c ^ 2 * (u * (R - r)) ^ 2 := by ring
  have hy' : (max R (min (SCALE - R) (cy + s * (u * (R - r)))) - cy) ^ 2 ≤
      s ^ 2 * (u * (R - r)) ^ 2 := by
    calc (max R (min (SCALE - R) (cy + s * (u * (R - r)))) - cy) ^ 2 ≤
        (cy + s * (u * (R - r)) - cy) ^ 2 := hy
      _ = s ^ 2 * (u * (R - r)) ^ 2 := by ring
  have hsum : c ^ 2 * (u * (R - r)) ^ 2 + s ^ 2 * (u * (R - r)) ^ 2 =
      u ^ 2 * (R - r) ^ 2 := by
    have : c ^ 2 * (u * (R - r)) ^ 2 + s ^ 2 * (u * (R - r)) ^ 2 =
        (c ^ 2 + s ^ 2) * (u * (R - r)) ^ 2 := by ring
    rw [this, hcs]; ring
  have hu2 : u ^ 2 ≤ 1 := by nlinarith
  have hkey : u ^ 2 * (R - r) ^ 2 ≤ (R - r) ^ 2 := by
    nlinarith [mul_nonneg (sub_nonneg.2 hu2) (sq_nonneg (R - r))]
  linarith [hx', hy', hsum, hkey]

/-- C1 witness: the amended containment instantiated on the small circle
at `(500, 500)`, hint level 0, draw `angle = 0`, `random = 1`. -/
theorem C1_hint_containment_witness :
    ((calculateRandomOffset (.circle ⟨500, 500, .small⟩)
        (getHintRadius 0) 1 0 1).1) ^ 2 +
      ((calculateRandomOffset (.circle ⟨500, 500, .small⟩)
        (getHintRadius 0) 1 0 1).2) ^ 2 ≤
      (getHintRadius 0 - getHitRadius .small) ^ 2 :=
  C1_hint_containment 500 500 .small 0 1 0 1 (by norm_num) (by norm_num)
    (by norm_num)
    (by norm_num [getHitRadius, getHintRadius, HIT_RADIUS_SMALL,
      HINT_INITIAL_RADIUS, HINT_MIN_RADIUS, HINT_MAX_LEVEL, max_def])
    (by norm_num [getHintRadius, HINT_INITIAL_RADIUS, HINT_MIN_RADIUS,
      HINT_MAX_LEVEL, max_def])
    (by norm_num [getHintRadius, SCALE, HINT_INITIAL_RADIUS, HINT_MIN_RADIUS,
      HINT_MAX_LEVEL, max_def])
    (by norm_num [getHintRadius, HINT_INITIAL_RADIUS, HINT_MIN_RADIUS,
      HINT_MAX_LEVEL, max_def])
    (by norm_num [getHintRadius, SCALE, HINT_INITIAL_RADIUS, HINT_MIN_RADIUS,
      HINT_MAX_LEVEL, max_def])

/-- For a single digit, `digitChar` produces a decimal digit character
that is not the separator and whose value round-trips. -/
lemma digitChar_facts (d : ℕ) (h : d < 10) :
    isDigitChar (digitChar d) = true ∧ digitChar d ≠ ':' ∧
      digitVal (digitChar d) = d := by
  interval_cases d <;> exact ⟨by decide, by decide, by decide⟩

/-- `natToChars` never produces the empty string. -/
lemma natToChars_ne_nil (n : ℕ) : natToChars n ≠ [] := by
  rw [natToChars]
  split
  · simp
  · simp

/-- Every character of `natToChars n` is a decimal digit and in particular
not the `':'` separator. -/
lemma natToChars_digits (n : ℕ) :
    ∀ ch ∈ natToChars n, isDigitChar ch = true ∧ ch ≠ ':' := by
  induction n using Nat.strong_induction_on with
  | _ n ih =>
    intro ch hch
    rw [natToChars] at hch
    by_cases h : n < 10
    · rw [dif_pos h] at hch
      simp only [List.mem_singleton] at hch
      subst hch
      exact ⟨(digitChar_facts n h).1, (digitChar_facts n h).2.1⟩
    · rw [dif_neg h] at hch
      rcases List.mem_append.1 hch with hl | hr
      · exact ih (n / 10) (Nat.div_lt_self (by omega) (by omega)) ch hl
      · simp only [List.mem_singleton] at hr
        subst hr
        have hm : n % 10 < 10 := Nat.mod_lt _ (by omega)
        exact ⟨(digitChar_facts _ hm).1, (digitChar_facts _ hm).2.1⟩

/-- Decimal evaluation of the digits produced by `natToChars`. -/
lemma natToChars_foldl (n : ℕ) :
    ∀ acc : ℕ,
      (natToChars n).foldl (fun a d => a * 10 + digitVal d) acc =
        acc * 10 ^ (natToChars n).length + n := by
  induction n using Nat.strong_induction_on with
  | _ n ih =>
    intro acc
    rw [natToChars]
    by_cases h : n < 10
    · rw [dif_pos h]
      simp [List.foldl, (digitChar_facts n h).2.2]
    · rw [dif_neg h]
      rw [List.foldl_append]
      have hm : n % 10 < 10 := Nat.mod_lt _ (by omega)
      have hdiv := ih (n / 10) (Nat.div_lt_self (by omega) (by omega)) acc
      simp only [hdiv, List.foldl, (digitChar_facts _ hm).2.2,
        List.length_append, List.length_singleton]
      have hpow : 10 ^ ((natToChars (n / 10)).length + 1) =
          10 ^ (natToChars (n / 10)).length * 10 := pow_succ 10 _
      have hnm : n / 10 * 10 + n % 10 = n := by omega
      rw [hpow]
      ring_nf
      omega

/-- A list all of whose characters satisfy the predicate is its own
`takeWhile`. -/
lemma takeWhile_of_all (p : Char → Bool) (l : List Char)
    (h : ∀ ch ∈ l, p ch = true) : l.takeWhile p = l := by
  induction l with
  | nil => rfl
  | cons x xs ih =>
    rw [List.takeWhile_cons, h x (List.mem_cons_self x xs)]
    rw [ih fun ch hch => h ch (List.mem_cons_of_mem x hch)]
    simp

/-- `parseInt` recovers the value rendered by `natToChars`. -/
lemma parseIntDec_natToChars (n : ℕ) :
    parseIntDec (natToChars n) = some n := by
  cases hnc : natToChars n with
  | nil => exact absurd hnc (natToChars_ne_nil n)
  | cons c rest =>
    have hc : isDigitChar c = true := by
      refine (natToChars_digits n c ?_).1
      rw [hnc]; exact List.mem_cons_self c rest
    have hall : (natToChars n).takeWhile isDigitChar = natToChars n :=
      takeWhile_of_all _ _ fun ch hch => (natToChars_digits n ch hch).1
    rw [hnc] at hall
    simp only [parseIntDec, hc, if_pos, hall]
    rw [show (c :: rest) = natToChars n from hnc.symm, natToChars_foldl n 0]
    simp

/-- A character that does not occur in a list is found by `lastIndexOf`
nowhere. -/
lemma lastIndexOf_not_mem (c : Char) (l : List Char) (h : c ∉ l) :
    lastIndexOf c l = none := by
  induction l with
  | nil => rfl
  | cons x xs ih =>
    have hx : ¬ (x = c) := fun hxc => h (hxc ▸ List.mem_cons_self x xs)
    have hxs : c ∉ xs := fun hmem => h (List.mem_cons_of_mem x hmem)
    simp [lastIndexOf, ih hxs, hx]

/-- The last colon of `title ++ ':' :: digits` is the separator, at index
`title.length`, whenever the digit suffix contains no colon. -/
lemma lastIndexOf_sep (t ds : List Char) (h : ':' ∉ ds) :
    lastIndexOf ':' (t ++ ':' :: ds) = some t.length := by
  induction t with
  | nil => simp [lastIndexOf, lastIndexOf_not_mem ':' ds h]
  | cons x xs ih => simp [lastIndexOf, ih]

/-- C10 (confirmed): position keys round-trip. For every title — colons in
the title included — and every index,
`parsePositionKey (makePositionKey title index) = some (title, index)`:
parsing splits at the last colon, which is the separator appended by
`makePositionKey` because the rendered index contains no colon. -/
theorem C10_position_key_roundtrip :
    ∀ (title : Str) (index : ℕ),
      parsePositionKey (makePositionKey title index) = some (title, index) := by
  intro title index
  have hds : ':' ∉ natToChars index := fun hmem =>
    (natToChars_digits index ':' hmem).2 rfl
  have hdrop : (title ++ ':' :: natToChars index).drop (title.length + 1) =
      natToChars index := by
    simp [List.drop_append]
  have htake : (title ++ ':' :: natToChars index).take title.length = title := by
    simp
  simp only [parsePositionKey, makePositionKey,
    lastIndexOf_sep title (natToChars index) hds, hdrop, htake,
    parseIntDec_natToChars]

end Sagashimono
